import Mathlib

/-!
Shallow embedding of the data-cleaning pipelines of the qm2023 capstone
repository (files `src/code/fetch_REIT_data.py`, `src/code/fetch_Climate_data.py`
and `src/code/fetch_dataset2_data.py`), together with theorems settling the
frozen claims about the natural-language specification.

Modelling conventions:
- a pandas DataFrame is a `Table`: a list of column names plus a list of rows;
  a cell is `Option Val`, with `none` for a missing value (NaN / None / NaT);
- numbers are exact rationals `Rat` (the idealisation of float64 used
  throughout; all numbers are finite, so `np.isfinite` holds of every number);
- a column counts as numeric (dtype float64 or int64) when no cell holds a
  string, matching the dtype pandas infers for CSV input;
- pandas comparisons against NaN are false, so a missing cell never satisfies
  a numeric comparison filter;
- `0/0 = 0` in `Rat` where pandas produces NaN (missing ratio of a table with
  zero rows, variance of an empty or singleton column); in every such place
  the code only asks whether the result exceeds a positive bound, and both NaN
  and 0 fail such a comparison, so the branch taken is the same.
-/

attribute [local semireducible] Rat.mul Rat.inv Rat.add Rat.sub

/-- A non-missing cell value: a finite number or a string. -/
inductive Val where
  | num (q : ℚ)
  | str (s : String)
deriving DecidableEq, Repr

/-- One cell of a table; `none` models a missing value. -/
abbrev Cell := Option Val

/-- One row of a table, cell list in column order. -/
abbrev Row := List Cell

/-- A pandas DataFrame: named columns and positional rows. -/
structure Table where
  cols : List String
  rows : List Row
deriving DecidableEq, Repr

/-- Numeric content of a cell, `none` for missing values and strings. -/
def numOf : Cell → Option ℚ
  | some (Val.num q) => some q
  | _ => none

/-- Column `j` of a table, as the list of cells in row order. -/
def colAt (t : Table) (j : Nat) : List Cell :=
  t.rows.map (fun r => r.getD j none)

/-- Position of a named column (meaningful only when the column exists). -/
def colIdx (t : Table) (c : String) : Nat := t.cols.indexOf c

/-- Test `c in df.columns`. -/
def hasCol (t : Table) (c : String) : Bool := t.cols.contains c

/-- The cells of the named column. -/
def columnOf (t : Table) (c : String) : List Cell := colAt t (colIdx t c)

/-- Count of missing values, `series.isnull().sum()`. -/
def missingCount (cells : List Cell) : Nat := cells.countP (·.isNone)

/-- Count of present values, `series.notna().sum()`. -/
def notnaCount (cells : List Cell) : Nat := cells.countP (·.isSome)

/-- Numeric values of a column with missing values skipped, as pandas
reductions (median, mean, std, quantile) see them. -/
def nums (cells : List Cell) : List ℚ := cells.filterMap numOf

/-- Dtype test: a column is numeric (float64 or int64) when no cell holds a
string; an all-missing column is float64 in pandas and counts as numeric. -/
def isNumericCol (cells : List Cell) : Bool :=
  cells.all (fun c => c.isNone || (numOf c).isSome)

/-- Boolean row selection `df[mask]`, with the mask given as a row predicate. -/
def filterRows (t : Table) (p : Row → Bool) : Table :=
  { cols := t.cols, rows := t.rows.filter p }

/-- Column assignment `df[c] = cells`: overwrite the column when the name
exists, otherwise append it as a new last column. -/
def setCol (t : Table) (c : String) (cells : List Cell) : Table :=
  match t.cols.indexOf? c with
  | some j => { cols := t.cols, rows := t.rows.zipWith (fun r v => r.set j v) cells }
  | none => { cols := t.cols ++ [c], rows := t.rows.zipWith (fun r v => r ++ [v]) cells }

/-- Missing-value ratio `df[col].isnull().sum() / len(df)` of one column.
With zero rows pandas gets NaN and this model gets 0; both fail the
strict comparison against a nonnegative threshold, so the same columns
are dropped. -/
def missingRatio (cells : List Cell) : ℚ :=
  (missingCount cells : ℚ) / (cells.length : ℚ)

/-- Indices of the columns `clean_missing_values` keeps: those whose missing
ratio does not strictly exceed the threshold. -/
def keptIdxs (t : Table) (threshold : ℚ) : List Nat :=
  (List.range t.cols.length).filter
    (fun j => !(decide (threshold < missingRatio (colAt t j))))

/-- Step 2 of `clean_missing_values` (fetch_REIT_data.py lines 117-122 and
fetch_Climate_data.py lines 120-126): drop every column whose missing ratio
strictly exceeds the threshold, keeping the remaining columns in order. -/
def dropCols (t : Table) (threshold : ℚ) : Table :=
  { cols := (keptIdxs t threshold).map (fun j => t.cols.getD j ""),
    rows := t.rows.map (fun r => (keptIdxs t threshold).map (fun j => r.getD j none)) }

/-- Insertion sort by the standard order on rationals, the sorted view used
by median, quantile and winsorisation. -/
def sortQ (xs : List ℚ) : List ℚ := List.insertionSort (· ≤ ·) xs

/-- Median as pandas computes it: missing values are already skipped by the
caller, the sorted middle element for odd length, the mean of the two middle
elements for even length, and NaN (here `none`) for an empty column. -/
def medianQ (xs : List ℚ) : Option ℚ :=
  let s := sortQ xs
  let n := s.length
  if n = 0 then none
  else if n % 2 = 1 then some (s.getD (n / 2) 0)
  else some ((s.getD (n / 2 - 1) 0 + s.getD (n / 2) 0) / 2)

/-- Lexicographic order on character lists, the order of Python strings,
implemented directly so that it evaluates by kernel reduction. -/
def charListLe : List Char → List Char → Bool
  | [], _ => true
  | _ :: _, [] => false
  | a :: as, b :: bs => if a < b then true else if b < a then false else charListLe as bs

/-- Order on values used to pick the first element of `series.mode()`, which
pandas returns sorted. Numbers sort before strings; a mixed column never
reaches a tie across kinds in the pipelines. -/
def valLe : Val → Val → Bool
  | Val.num a, Val.num b => decide (a ≤ b)
  | Val.str a, Val.str b => charListLe a.data b.data
  | Val.num _, Val.str _ => true
  | Val.str _, Val.num _ => false

/-- First element of `series.mode()`: the least, under `valLe`, of the
non-missing values of maximal multiplicity; `none` when every value is
missing. -/
def modeHead (cells : List Cell) : Option Val :=
  let vs : List Val := cells.filterMap id
  vs.foldl (fun acc v =>
    match acc with
    | none => some v
    | some b =>
      if vs.count b < vs.count v then some v
      else if vs.count v = vs.count b && valLe v b then some v
      else some b) none

/-- Fill of missing cells, `series.fillna(v)`; filling with NaN (`none`)
leaves the column unchanged, exactly as pandas does. -/
def fillna (v : Cell) (cells : List Cell) : List Cell :=
  cells.map (fun c => match c with | none => v | some x => some x)

/-- Step 3 of `clean_missing_values` for one remaining column
(fetch_REIT_data.py lines 124-139): impute with the median when the dtype is
numeric, otherwise with the first mode, falling back to the string
"Unknown" when the mode is empty; columns without missing values are left
untouched. -/
def imputeCol (cells : List Cell) : List Cell :=
  if missingCount cells = 0 then cells
  else if isNumericCol cells then
    fillna ((medianQ (nums cells)).map Val.num) cells
  else
    fillna (some ((modeHead cells).getD (Val.str "Unknown"))) cells

/-- Columns of a table in declaration order. -/
def columnsOf (t : Table) : List (List Cell) :=
  (List.range t.cols.length).map (colAt t)

/-- Reassembly of a table from its columns (`n` is the row count). -/
def tableOfCols (names : List String) (cs : List (List Cell)) (n : Nat) : Table :=
  { cols := names,
    rows := (List.range n).map (fun i => cs.map (fun col => col.getD i none)) }

/-- The function `clean_missing_values` (fetch_REIT_data.py lines 91-145):
drop the columns whose missing ratio exceeds the threshold, then impute each
remaining column independently. The climate variant
(fetch_Climate_data.py lines 101-148) computes the same table in this model,
since its datetime branch never fires (dates are classified as categorical
here) and its numeric and categorical branches coincide with these. -/
def clean_missing_values (t : Table) (threshold : ℚ) : Table :=
  let t1 := dropCols t threshold
  tableOfCols t1.cols ((columnsOf t1).map imputeCol) t1.rows.length

/-- Linear-interpolation quantile, the pandas default used by
`series.quantile(p)` (missing values skipped by the caller): with sorted
values `s` of length `n`, position `h = p * (n - 1)`, the result interpolates
between the entries at `floor h` and `floor h + 1`; `none` for an empty
column (pandas NaN). -/
def quantileQ (xs : List ℚ) (p : ℚ) : Option ℚ :=
  let s := sortQ xs
  let n := s.length
  if n = 0 then none
  else
    let h : ℚ := p * ((n : ℚ) - 1)
    let i : Nat := h.floor.toNat
    let lo := s.getD i 0
    let hi := s.getD (i + 1) lo
    some (lo + (h - (i : ℚ)) * (hi - lo))

/-- The function `identify_outliers_iqr` (fetch_REIT_data.py lines 152-169):
flag values outside `[Q1 - k*IQR, Q3 + k*IQR]`. A missing cell compares
false on both sides, as in pandas; a column without numeric values has NaN
quantiles in pandas and flags nothing, modelled by the all-false branch. -/
def identify_outliers_iqr (cells : List Cell) (k : ℚ) : List Bool :=
  match quantileQ (nums cells) (1/4), quantileQ (nums cells) (3/4) with
  | some q1, some q3 =>
    let lower_bound := q1 - k * (q3 - q1)
    let upper_bound := q3 + k * (q3 - q1)
    cells.map (fun c =>
      match numOf c with
      | some x => decide (x < lower_bound) || decide (upper_bound < x)
      | none => false)
  | _, _ => cells.map (fun _ => false)

/-- Arithmetic mean of a list of rationals, 0 for the empty list where
pandas or numpy produce NaN (used only under a guard that makes the two
agree). -/
def meanQ (xs : List ℚ) : ℚ := xs.sum / (xs.length : ℚ)

/-- Population variance (ddof = 0), the square of the standard deviation
used by `scipy.stats.zscore`. -/
def varPop (xs : List ℚ) : ℚ :=
  ((xs.map (fun x => (x - meanQ xs) ^ 2)).sum) / (xs.length : ℚ)

/-- Sample variance (ddof = 1), the square of `series.std()`; 0 for lists of
length at most one, where pandas has NaN (both fail the positivity guard). -/
def varSamp (xs : List ℚ) : ℚ :=
  ((xs.map (fun x => (x - meanQ xs) ^ 2)).sum) / ((xs.length : ℚ) - 1)

/-- The function `identify_outliers_zscore` (fetch_REIT_data.py lines
172-185): flag values with `|stats.zscore(series)| > threshold`, where
zscore uses the population deviation over all entries. Any missing entry
makes the numpy mean and deviation NaN, so nothing is flagged; that is the
first branch. For the comparison itself, `|x - m| / s > thr` with `s > 0`
and `thr >= 0` is encoded by the equivalent square form
`thr^2 * var < (x - m)^2`, keeping the computation rational; a zero variance
gives NaN z-scores in numpy and flags nothing, hence the positivity
conjunct. -/
def identify_outliers_zscore (cells : List Cell) (threshold : ℚ) : List Bool :=
  if cells.any (fun c => (numOf c).isNone) then
    cells.map (fun _ => false)
  else
    let xs := nums cells
    cells.map (fun c =>
      match numOf c with
      | some x =>
        decide (0 < varPop xs) && decide (threshold ^ 2 * varPop xs < (x - meanQ xs) ^ 2)
      | none => false)

/-- The per-column z-score mask of `handle_outliers_zscore`
(fetch_Climate_data.py lines 171-174): pandas `mean()` and `std()` skip
missing values and use ddof = 1; a missing cell has NaN z-score and is not
flagged. Encoded in square form as for the REIT variant. -/
def zscoreMaskClimate (cells : List Cell) (threshold : ℚ) : List Bool :=
  cells.map (fun c =>
    match numOf c with
    | some x =>
      decide (0 < varSamp (nums cells)) &&
        decide (threshold ^ 2 * varSamp (nums cells) < (x - meanQ (nums cells)) ^ 2)
    | none => false)

/-- Lower winsorisation bound: the value of rank `int(0.05 * m)` among the
`m` sorted numeric values (float arithmetic agrees with `m / 20` on these
naturals). -/
def loLimit (cells : List Cell) : ℚ :=
  (sortQ (nums cells)).getD ((nums cells).length / 20) 0

/-- Upper winsorisation bound: the value of rank `m - 1 - int(0.05 * m)`. -/
def hiLimit (cells : List Cell) : ℚ :=
  (sortQ (nums cells)).getD
    ((nums cells).length - 1 - (nums cells).length / 20) 0

/-- Clamp of one numeric cell into the winsorisation window; missing cells
pass through. -/
def clampCell (lo hi : ℚ) : Cell → Cell
  | some (Val.num x) => some (Val.num (if x < lo then lo else if hi < x then hi else x))
  | other => other

/-- Winsorisation at the fixed limits `WINSORIZE_LIMITS = (0.05, 0.05)`
(fetch_REIT_data.py line 49), as `scipy.stats.mstats.winsorize` computes it
with the default inclusive bounds: with `m` numeric values and
`kk = int(0.05 * m)`, the `kk` smallest entries are raised to the value of
rank `kk` and the `kk` largest entries are lowered to the value of rank
`m - 1 - kk`; positionwise this clamps every numeric value into that rank
window. Missing cells do not occur in pipeline use (they are removed
beforehand) and are passed through unchanged. -/
def winsorizeCells (cells : List Cell) : List Cell :=
  cells.map (clampCell (loLimit cells) (hiLimit cells))

/-- Count of flagged values of the IQR mask, `outlier_mask.sum()`. -/
def iqrFlagged (cells : List Cell) (k : ℚ) : Nat :=
  (identify_outliers_iqr cells k).count true

/-- Treatment of one numeric column by `handle_outliers`
(fetch_REIT_data.py lines 217-235, method iqr): when the IQR mask flags at
least one value the whole column is winsorised at the fixed 5 percent
limits, otherwise the column is left untouched. -/
def capColumnIQR (cells : List Cell) (k : ℚ) : List Cell :=
  if 0 < iqrFlagged cells k then winsorizeCells cells else cells

/-- Indices of the numeric columns, `df.select_dtypes(include=[np.number])`,
in declaration order; computed once before the per-column loops, as in the
source (row removal never changes a dtype). -/
def numericColIdxs (t : Table) : List Nat :=
  (List.range t.cols.length).filter (fun j => isNumericCol (colAt t j))

/-- Replacement of column `j` by the given cells, `df[col] = cells` for an
existing column addressed by position. -/
def setColAt (t : Table) (j : Nat) (cells : List Cell) : Table :=
  { cols := t.cols, rows := t.rows.zipWith (fun r v => r.set j v) cells }

/-- Loop body of `handle_outliers` (fetch_REIT_data.py lines 217-235) over
the numeric column indices: dispatch on the method string per column,
raising `ValueError` (the error case) for an unknown method at the first
numeric column under test; `acc` accumulates `outliers_found`. -/
def handleOutliersGo (method : String) (thr : ℚ) :
    List Nat → Table → Nat → Except String (Table × Nat)
  | [], t, acc => Except.ok (t, acc)
  | j :: js, t, acc =>
    if method = "iqr" then
      let cnt := (identify_outliers_iqr (colAt t j) thr).count true
      let t' := if 0 < cnt then setColAt t j (winsorizeCells (colAt t j)) else t
      handleOutliersGo method thr js t' (acc + cnt)
    else if method = "zscore" then
      let cnt := (identify_outliers_zscore (colAt t j) thr).count true
      let t' := if 0 < cnt then setColAt t j (winsorizeCells (colAt t j)) else t
      handleOutliersGo method thr js t' (acc + cnt)
    else Except.error ("Unknown outlier method: " ++ method)

/-- The function `handle_outliers` (fetch_REIT_data.py lines 188-237):
process every numeric column in declaration order, winsorising the columns
in which the chosen detector flags at least one value; returns the table and
the total flagged count, or the `ValueError` message for an unknown
method. -/
def handle_outliers (t : Table) (method : String) (thr : ℚ) :
    Except String (Table × Nat) :=
  handleOutliersGo method thr (numericColIdxs t) t 0

/-- Removal of the rows marked true, `df[~outlier_mask]` for a mask aligned
with the rows. -/
def removeByMask (rows : List Row) (mask : List Bool) : List Row :=
  (rows.zip mask).filterMap (fun p => if p.2 then none else some p.1)

/-- The function `handle_outliers_zscore` (fetch_Climate_data.py lines
155-188): for each numeric column in order, compute the z-score mask on the
table as it currently stands and drop the flagged rows (the conditional
`if col_outliers > 0` in the source skips an empty removal, which changes
nothing). -/
def handle_outliers_zscore (t : Table) (threshold : ℚ) : Table :=
  (numericColIdxs t).foldl
    (fun acc j =>
      { cols := acc.cols,
        rows := removeByMask acc.rows (zscoreMaskClimate (colAt acc j) threshold) })
    t

/-- Mask `df.duplicated()`: a row is marked true when an earlier row is
equal to it cellwise (missing cells compare equal, as in pandas). -/
def dupMaskAux (seen : List Row) : List Row → List Bool
  | [] => []
  | r :: rs => seen.contains r :: dupMaskAux (r :: seen) rs

/-- Rows of `df.drop_duplicates(keep=first)`: keep a row when no earlier row
equals it. -/
def dropDupAux (seen : List Row) : List Row → List Row
  | [] => []
  | r :: rs => if seen.contains r then dropDupAux seen rs else r :: dropDupAux (r :: seen) rs

/-- The function `remove_duplicates` (fetch_REIT_data.py lines 244-274 and
fetch_Climate_data.py lines 195-212): count the duplicated rows and, when
any exist, drop them keeping the first occurrence. -/
def remove_duplicates (t : Table) : Table :=
  if 0 < (dupMaskAux [] t.rows).count true then
    { cols := t.cols, rows := dropDupAux [] t.rows }
  else t

/-- Deduplication as the specification words it (section 4.4): keep the
first occurrence in row order and remove all subsequent exact matches. This
definition follows the words of the spec, for comparison with
`remove_duplicates`, which follows the source. -/
def dedupeSpec : List Row → List Row
  | [] => []
  | r :: rs => r :: dedupeSpec (rs.filter (fun x => x ≠ r))
termination_by l => l.length
decreasing_by
  simp only [List.length_cons]
  exact Nat.lt_succ_of_le (List.length_filter_le _ _)

/-- Digits-only parse of a natural number from characters, used for the year
part of an ISO date string. -/
def parseNatChars (cs : List Char) : Option Nat :=
  if cs = [] then none
  else if cs.all Char.isDigit then
    some (cs.foldl (fun acc c => acc * 10 + (c.toNat - Char.toNat '0')) 0)
  else none

/-- Year extraction `pd.to_datetime(df[date]).dt.year` for a cell holding an
ISO formatted date string (the shape raw date columns have in this data);
missing cells give NaT and hence a missing year. Cells that would make
`to_datetime` raise are modelled as missing, which no claim exercises. -/
def yearOfCell : Cell → Cell
  | some (Val.str s) =>
    match parseNatChars (s.data.takeWhile (fun c => c ≠ '-')) with
    | some y => some (Val.num (y : ℚ))
    | none => none
  | _ => none

/-- Comparison `series >= q` on one cell; missing cells and strings compare
false, as a pandas numeric comparison does for NaN. -/
def cellGeNum (c : Cell) (q : ℚ) : Bool :=
  match numOf c with | some x => decide (q ≤ x) | none => false

/-- Comparison `series <= q` on one cell. -/
def cellLeNum (c : Cell) (q : ℚ) : Bool :=
  match numOf c with | some x => decide (x ≤ q) | none => false

/-- Comparison `series > q` on one cell. -/
def cellGtNum (c : Cell) (q : ℚ) : Bool :=
  match numOf c with | some x => decide (q < x) | none => false

/-- Comparison `series == q` on one cell; NaN and strings compare false. -/
def cellEqNum (c : Cell) (q : ℚ) : Bool :=
  match numOf c with | some x => decide (x = q) | none => false

/-- Filter 1 of the REIT `apply_filters` (fetch_REIT_data.py lines 307-311):
when a date column exists, assign a derived year column (a new last column
when no column named year exists yet) and keep the rows with year between
`START_YEAR = 2000` and `END_YEAR = 2024`. -/
def reitFilter1 (t : Table) : Table :=
  if hasCol t "date" then
    let t1 := setCol t "year" ((columnOf t "date").map yearOfCell)
    let j := colIdx t1 "year"
    filterRows t1 (fun r => cellGeNum (r.getD j none) 2000 && cellLeNum (r.getD j none) 2024)
  else t

/-- Filter 2 of the REIT `apply_filters` (lines 313-319): keep rows with
`assets >= MIN_ASSETS = 100`. -/
def reitFilter2 (t : Table) : Table :=
  if hasCol t "assets" then
    filterRows t (fun r => cellGeNum (r.getD (colIdx t "assets") none) 100)
  else t

/-- Rows-removed count printed by filter 2: the difference of the notna
counts of the assets column before and after the filter, exactly as the
source computes `assets_removed`. -/
def reitReported2 (t : Table) : Int :=
  (notnaCount (columnOf t "assets") : Int)
    - (notnaCount (columnOf (reitFilter2 t) "assets") : Int)

/-- Filter 3 of the REIT `apply_filters` (lines 321-327): keep rows with a
present usdret value. -/
def reitFilter3 (t : Table) : Table :=
  if hasCol t "usdret" then
    filterRows t (fun r => (r.getD (colIdx t "usdret") none).isSome)
  else t

/-- Rows-removed count printed by filter 3, `returns_removed` in the source:
notna count of usdret before minus after. -/
def reitReported3 (t : Table) : Int :=
  (notnaCount (columnOf t "usdret") : Int)
    - (notnaCount (columnOf (reitFilter3 t) "usdret") : Int)

/-- Filter 4 of the REIT `apply_filters` (lines 329-335): keep rows with a
present and strictly positive usdprc value. -/
def reitFilter4 (t : Table) : Table :=
  if hasCol t "usdprc" then
    filterRows t (fun r =>
      (r.getD (colIdx t "usdprc") none).isSome && cellGtNum (r.getD (colIdx t "usdprc") none) 0)
  else t

/-- Rows-removed count printed by filter 4, `price_removed` in the source:
notna count of usdprc before minus after. -/
def reitReported4 (t : Table) : Int :=
  (notnaCount (columnOf t "usdprc") : Int)
    - (notnaCount (columnOf (reitFilter4 t) "usdprc") : Int)

/-- Filter 5 of the REIT `apply_filters` (lines 337-344): keep rows with
`rtype == 2.0`. -/
def reitFilter5 (t : Table) : Table :=
  if hasCol t "rtype" then
    filterRows t (fun r => cellEqNum (r.getD (colIdx t "rtype") none) 2)
  else t

/-- Rows-removed count printed by filter 5, `rtype_removed` in the source:
the row count before minus after. -/
def reitReported5 (t : Table) : Int :=
  (t.rows.length : Int) - ((reitFilter5 t).rows.length : Int)

/-- The function `apply_filters` of fetch_REIT_data.py (lines 281-353):
the five filters in order, each applied to the table left by the previous
one, together with the rows-removed counts the source prints for filters 2
to 5 (filter 1 prints no count). -/
def reit_apply_filters (t : Table) : Table × List (String × Int) :=
  let t1 := reitFilter1 t
  let t2 := reitFilter2 t1
  let t3 := reitFilter3 t2
  let t4 := reitFilter4 t3
  let t5 := reitFilter5 t4
  (t5,
    (if hasCol t1 "assets" then [("min_assets_100M", reitReported2 t1)] else []) ++
    (if hasCol t2 "usdret" then [("valid_returns", reitReported3 t2)] else []) ++
    (if hasCol t3 "usdprc" then [("valid_prices", reitReported4 t3)] else []) ++
    (if hasCol t4 "rtype" then [("rtype_2.0", reitReported5 t4)] else []))

/-- Normalisation `pd.to_datetime(df[date])` of one cell in the climate
pipeline: ISO date strings are kept (their lexicographic order is date
order), missing cells stay NaT. -/
def toDatetimeCell : Cell → Cell
  | some (Val.str s) => some (Val.str s)
  | _ => none

/-- Membership of a date cell in `[lo, hi]`, with ISO strings compared
lexicographically; NaT compares false, as in pandas. -/
def cellDateBetween (c : Cell) (lo hi : String) : Bool :=
  match c with
  | some (Val.str s) => charListLe lo.data s.data && charListLe s.data hi.data
  | _ => false

/-- Filter 1 of the climate `apply_filters` (fetch_Climate_data.py lines
237-241): normalise the date column in place and keep rows with date
between `START_DATE` and `END_DATE`. -/
def climateFilter1 (t : Table) : Table :=
  if hasCol t "date" then
    let t1 := setCol t "date" ((columnOf t "date").map toDatetimeCell)
    filterRows t1 (fun r =>
      cellDateBetween (r.getD (colIdx t1 "date") none) "2000-01-01" "2024-12-31")
  else t

/-- Filter 2 of the climate `apply_filters` (lines 243-248): keep rows with
`stock_price >= MIN_STOCK_PRICE = 1`. -/
def climateFilter2 (t : Table) : Table :=
  if hasCol t "stock_price" then
    filterRows t (fun r => cellGeNum (r.getD (colIdx t "stock_price") none) 1)
  else t

/-- Rows-removed count printed by climate filter 2, computed in the source
as the row count before minus after. -/
def climateReported2 (t : Table) : Int :=
  (t.rows.length : Int) - ((climateFilter2 t).rows.length : Int)

/-- Filter 3 of the climate `apply_filters` (lines 250-255): keep rows with
a present climate_score. -/
def climateFilter3 (t : Table) : Table :=
  if hasCol t "climate_score" then
    filterRows t (fun r => (r.getD (colIdx t "climate_score") none).isSome)
  else t

/-- Rows-removed count printed by climate filter 3: row count before minus
after. -/
def climateReported3 (t : Table) : Int :=
  (t.rows.length : Int) - ((climateFilter3 t).rows.length : Int)

/-- The constant `REQUIRED_COLUMNS` of fetch_Climate_data.py (line 72). -/
def REQUIRED_COLUMNS : List String :=
  ["date", "ticker", "stock_price", "climate_score", "returns"]

/-- Filter 4 of the climate `apply_filters` (lines 257-263): keep rows in
which every required column present in the table has a value. -/
def climateFilter4 (t : Table) : Table :=
  let req := REQUIRED_COLUMNS.filter (fun c => t.cols.contains c)
  filterRows t (fun r => req.all (fun c => (r.getD (colIdx t c) none).isSome))

/-- Rows-removed count printed by climate filter 4: row count before minus
after. -/
def climateReported4 (t : Table) : Int :=
  (t.rows.length : Int) - ((climateFilter4 t).rows.length : Int)

/-- Filter 5 of the climate `apply_filters` (lines 265-271): keep rows whose
returns value is present and finite; every rational number of the model is
finite, so the finiteness conjunct of the source holds of every present
numeric value. -/
def climateFilter5 (t : Table) : Table :=
  if hasCol t "returns" then
    filterRows t (fun r => (r.getD (colIdx t "returns") none).isSome)
  else t

/-- Rows-removed count printed by climate filter 5: row count before minus
after. -/
def climateReported5 (t : Table) : Int :=
  (t.rows.length : Int) - ((climateFilter5 t).rows.length : Int)

/-- Filter 6 of the climate `apply_filters` (lines 273-279): drop every row
whose ticker belongs to a company with fewer than `MIN_OBSERVATIONS = 20`
rows; `value_counts` skips missing tickers, and a missing ticker is not a
member of the small-company set, so such rows are kept. The source skips
the selection when no company is small, which leaves the same table. -/
def climateFilter6 (t : Table) : Table :=
  if hasCol t "ticker" then
    let vals := (columnOf t "ticker").filterMap id
    filterRows t (fun r =>
      match r.getD (colIdx t "ticker") none with
      | some v => decide (20 ≤ vals.count v)
      | none => true)
  else t

/-- The function `apply_filters` of fetch_Climate_data.py (lines 219-295):
the six filters in order, each applied to the table left by the previous
one, together with the rows-removed counts printed for filters 2 to 5. -/
def climate_apply_filters (t : Table) : Table × List (String × Int) :=
  let t1 := climateFilter1 t
  let t2 := climateFilter2 t1
  let t3 := climateFilter3 t2
  let t4 := climateFilter4 t3
  let t5 := climateFilter5 t4
  let t6 := climateFilter6 t5
  (t6,
    (if hasCol t1 "stock_price" then [("stock_price", climateReported2 t1)] else []) ++
    (if hasCol t2 "climate_score" then [("climate_score", climateReported3 t2)] else []) ++
    [("paired", climateReported4 t3)] ++
    (if hasCol t4 "returns" then [("returns", climateReported5 t4)] else []))

/-- Substring test for the two characters i d, after lowercasing: the check
`if id in col.lower()` of the validators. -/
def hasIdSub : List Char → Bool
  | [] => false
  | c :: cs => (c = 'i' && (cs.headD ' ') = 'd') || hasIdSub cs

/-- The function `validate_cleaned_data` (fetch_Climate_data.py lines
302-327 and identically fetch_dataset2_data.py lines 248-273): columns whose
lowercased name contains id are critical; missing values there produce a
warning diagnostic only, and the verdict is false exactly when the table has
zero rows. -/
def validate_cleaned_data (t : Table) : Bool × List String :=
  let critical := t.cols.filter (fun c => hasIdSub (c.data.map Char.toLower))
  let nullTotal := (critical.map (fun c => missingCount (columnOf t c))).sum
  let warnings :=
    if critical.isEmpty then []
    else if nullTotal = 0 then []
    else ["Nulls found in critical columns"]
  if 0 < t.rows.length then (true, warnings)
  else (false, warnings ++ ["Dataset is empty!"])

/-- The constant `MISSING_VALUE_THRESHOLD = 0.5` (fetch_REIT_data.py
line 46). -/
def MISSING_VALUE_THRESHOLD : ℚ := 1/2

/-- The constant `OUTLIER_THRESHOLD = 1.5` (fetch_REIT_data.py line 48). -/
def OUTLIER_THRESHOLD : ℚ := 3/2

/-- The cleaning stages of `main` of fetch_REIT_data.py (lines 392-433), in
source order, with the method string as the configuration under test: the
missing-value stage always runs first, and an unknown method can only
surface in the outlier stage. -/
def reitPipeline (t : Table) (method : String) : Except String Table := do
  let t1 := clean_missing_values t MISSING_VALUE_THRESHOLD
  let p ← handle_outliers t1 method OUTLIER_THRESHOLD
  let t3 := remove_duplicates p.1
  let t4 := (reit_apply_filters t3).1
  return t4

/-- Decidable statement that a table has no missing values anywhere. -/
def noMissing (t : Table) : Bool :=
  t.rows.all (fun r => r.all (fun c => c.isSome))

/-- Rebuilding a list from positional reads is the identity. -/
theorem getD_range_eq_self (col : List Cell) :
    (List.range col.length).map (fun i => col.getD i none) = col := by
  apply List.ext_getElem
  · simp
  · intro i h1 h2
    simp [List.getD_eq_getElem?_getD, List.getElem?_eq_getElem h2]

/-- Length of a filled column. -/
theorem length_fillna (v : Cell) (cells : List Cell) :
    (fillna v cells).length = cells.length := by
  simp [fillna]

/-- Length of an imputed column. -/
theorem length_imputeCol (cells : List Cell) :
    (imputeCol cells).length = cells.length := by
  unfold imputeCol
  split
  · rfl
  · split <;> simp [length_fillna]

/-- Filling with a present value leaves no missing cells. -/
theorem fillna_isSome (v : Val) (cells : List Cell) :
    ∀ c ∈ fillna (some v) cells, c.isSome := by
  intro c hc
  simp only [fillna, List.mem_map] at hc
  obtain ⟨a, _, ha⟩ := hc
  cases a <;> simp [← ha]

/-- A column with zero missing count has only present cells. -/
theorem isSome_of_missingCount_zero {cells : List Cell}
    (h : missingCount cells = 0) : ∀ c ∈ cells, c.isSome := by
  intro c hc
  by_contra hs
  have hnone : c.isNone := by cases c <;> simp_all
  have : 0 < missingCount cells := by
    unfold missingCount
    exact List.countP_pos.mpr ⟨c, hc, by simpa using hnone⟩
  omega

/-- A column with fewer missing cells than cells has a present cell. -/
theorem exists_isSome_of_missing_lt {cells : List Cell}
    (h : missingCount cells < cells.length) : ∃ c ∈ cells, c.isSome := by
  by_contra hall
  push_neg at hall
  have : missingCount cells = cells.length := by
    unfold missingCount
    apply List.countP_eq_length.mpr
    intro c hc
    have := hall c hc
    cases c <;> simp_all
  omega

/-- In a numeric column, a present cell contributes a numeric value. -/
theorem nums_ne_nil_of_isSome {cells : List Cell}
    (hnum : isNumericCol cells = true) (h : ∃ c ∈ cells, c.isSome) :
    nums cells ≠ [] := by
  obtain ⟨c, hc, hs⟩ := h
  have hx : (numOf c).isSome := by
    have := (List.all_eq_true.mp hnum) c hc
    cases c with
    | none => simp at hs
    | some v => simpa using this
  obtain ⟨x, hx⟩ := Option.isSome_iff_exists.mp hx
  intro hnil
  have : x ∈ nums cells := List.mem_filterMap.mpr ⟨c, hc, hx⟩
  simp [hnil] at this

/-- The median of a nonempty list is present. -/
theorem medianQ_isSome {xs : List ℚ} (h : xs ≠ []) : (medianQ xs).isSome := by
  have hlen : (sortQ xs).length ≠ 0 := by
    rw [sortQ, List.length_insertionSort]
    simpa [List.length_eq_zero] using h
  simp only [medianQ]
  split
  · exact absurd (by assumption) hlen
  · split <;> simp

/-- A fold that turns `none` into `some` on the first element and keeps
presence afterwards ends present on a nonempty list. -/
theorem foldl_isSome_of_step (g : Option Val → Val → Option Val)
    (hg : ∀ b v, (g (some b) v).isSome) (h0 : ∀ v, g none v = some v) :
    ∀ l : List Val, l ≠ [] → (l.foldl g none).isSome := by
  have aux : ∀ (l : List Val) (acc : Option Val), acc.isSome →
      (l.foldl g acc).isSome := by
    intro l
    induction l with
    | nil => exact fun acc h => h
    | cons a l ih =>
      intro acc hacc
      obtain ⟨b, rfl⟩ := Option.isSome_iff_exists.mp hacc
      simpa using ih (g (some b) a) (hg b a)
  intro l hl
  cases l with
  | nil => exact absurd rfl hl
  | cons a l =>
    rw [List.foldl_cons, h0 a]
    exact aux l (some a) (by simp)

/-- The mode of a column with a present cell is present. -/
theorem modeHead_isSome {cells : List Cell} (h : ∃ c ∈ cells, c.isSome) :
    (modeHead cells).isSome := by
  obtain ⟨c, hc, hs⟩ := h
  obtain ⟨v, hv⟩ := Option.isSome_iff_exists.mp hs
  have hmem : v ∈ cells.filterMap id := List.mem_filterMap.mpr ⟨c, hc, by simp [hv]⟩
  have hne : cells.filterMap id ≠ [] := by
    intro hnil
    simp [hnil] at hmem
  unfold modeHead
  refine foldl_isSome_of_step _ ?_ ?_ _ hne
  · intro b v
    dsimp only
    split <;> simp_all
    split <;> simp
  · intro v
    rfl

/-- An imputed column with at least one present cell has only present
cells. -/
theorem imputeCol_isSome {cells : List Cell}
    (h : missingCount cells < cells.length) :
    ∀ c ∈ imputeCol cells, c.isSome := by
  unfold imputeCol
  split
  · exact isSome_of_missingCount_zero (by assumption)
  · have hex : ∃ c ∈ cells, c.isSome := exists_isSome_of_missing_lt h
    split
    · have hne := nums_ne_nil_of_isSome (by assumption) hex
      obtain ⟨m, hm⟩ := Option.isSome_iff_exists.mp (medianQ_isSome hne)
      rw [hm]
      exact fillna_isSome _ _
    · obtain ⟨m, hm⟩ := Option.isSome_iff_exists.mp (modeHead_isSome hex)
      rw [hm]
      simpa [hm] using fillna_isSome ((modeHead cells).getD (Val.str "Unknown")) cells

/-- Positional read of a mapped list inside the length. -/
theorem getD_map_lt {α β : Type} (f : α → β) (l : List α) (i : Nat)
    (h : i < l.length) (d : β) (d0 : α) :
    (l.map f).getD i d = f (l.getD i d0) := by
  rw [List.getD_eq_getElem?_getD, List.getElem?_map,
    List.getElem?_eq_getElem h, List.getD_eq_getElem?_getD,
    List.getElem?_eq_getElem h]
  rfl

/-- Positional reads inside the length are members. -/
theorem getD_mem_of_lt {α : Type} (l : List α) (i : Nat) (h : i < l.length)
    (d : α) : l.getD i d ∈ l := by
  rw [List.getD_eq_getElem?_getD, List.getElem?_eq_getElem h]
  exact List.getElem_mem h

/-- Membership in the kept-column index list gives the range bound and the
threshold bound. -/
theorem mem_keptIdxs {t : Table} {threshold : ℚ} {j : Nat}
    (h : j ∈ keptIdxs t threshold) :
    j < t.cols.length ∧ missingRatio (colAt t j) ≤ threshold := by
  unfold keptIdxs at h
  have := List.mem_filter.mp h
  refine ⟨List.mem_range.mp this.1, ?_⟩
  have hb := this.2
  simp only [Bool.not_eq_true', decide_eq_false_iff_not, not_lt] at hb
  exact hb

/-- Row count of the column-drop step. -/
theorem rows_dropCols (t : Table) (threshold : ℚ) :
    (dropCols t threshold).rows.length = t.rows.length := by
  simp [dropCols]

/-- Column count of the column-drop step. -/
theorem cols_dropCols (t : Table) (threshold : ℚ) :
    (dropCols t threshold).cols.length = (keptIdxs t threshold).length := by
  simp [dropCols]

/-- The columns of the dropped table are the kept columns of the input. -/
theorem colAt_dropCols (t : Table) (threshold : ℚ) (j : Nat)
    (hj : j < (keptIdxs t threshold).length) :
    colAt (dropCols t threshold) j = colAt t ((keptIdxs t threshold).getD j 0) := by
  simp only [colAt, dropCols, List.map_map]
  apply List.map_congr_left
  intro r _
  exact getD_map_lt _ _ _ hj _ 0

/-- Length of a column read. -/
theorem length_colAt (t : Table) (j : Nat) :
    (colAt t j).length = t.rows.length := by
  simp [colAt]

/-- Row count of `clean_missing_values`. -/
theorem rows_clean_missing_values (t : Table) (threshold : ℚ) :
    (clean_missing_values t threshold).rows.length = t.rows.length := by
  simp [clean_missing_values, tableOfCols, rows_dropCols]

/-- Column count of `clean_missing_values`. -/
theorem cols_clean_missing_values (t : Table) (threshold : ℚ) :
    (clean_missing_values t threshold).cols.length ≤ t.cols.length := by
  simp only [clean_missing_values, tableOfCols, cols_dropCols, dropCols]
  calc ((keptIdxs t threshold).map (fun j => t.cols.getD j "")).length
      = (keptIdxs t threshold).length := by simp
    _ ≤ (List.range t.cols.length).length := List.length_filter_le _ _
    _ = t.cols.length := by simp

/-- Every cell of the table returned by `clean_missing_values` under a
threshold below one is present. -/
theorem clean_missing_values_isSome (t : Table) (threshold : ℚ)
    (h1 : threshold < 1) :
    ∀ r ∈ (clean_missing_values t threshold).rows, ∀ c ∈ r, c.isSome := by
  intro r hr c hc
  simp only [clean_missing_values, tableOfCols, List.mem_map] at hr
  obtain ⟨i, hi, hrdef⟩ := hr
  rw [← hrdef] at hc
  simp only [List.mem_map] at hc
  obtain ⟨col, hcol, hcdef⟩ := hc
  simp only [columnsOf, List.mem_map] at hcol
  obtain ⟨col0, hcol0, hcoldef⟩ := hcol
  obtain ⟨j, hjr, hj0⟩ := hcol0
  have hjlt : j < (keptIdxs t threshold).length := by
    have := List.mem_range.mp hjr
    simpa [cols_dropCols, dropCols] using this
  have hcol0eq : col0 = colAt t ((keptIdxs t threshold).getD j 0) := by
    rw [← hj0]
    exact colAt_dropCols t threshold j hjlt
  have hkmem : (keptIdxs t threshold).getD j 0 ∈ keptIdxs t threshold :=
    getD_mem_of_lt _ j hjlt 0
  have hratio := (mem_keptIdxs hkmem).2
  have hn : i < t.rows.length := by
    have := List.mem_range.mp hi
    simpa [rows_dropCols] using this
  have hlen0 : col0.length = t.rows.length := by
    rw [hcol0eq]
    exact length_colAt _ _
  have hmisslt : missingCount col0 < col0.length := by
    have hpos : (0 : ℚ) < (col0.length : ℚ) := by
      have : 0 < col0.length := by omega
      exact_mod_cast this
    have hratio0 : missingRatio col0 ≤ threshold := by
      rw [hcol0eq]
      simpa [hcol0eq] using hratio
    have : (missingCount col0 : ℚ) / (col0.length : ℚ) < 1 :=
      lt_of_le_of_lt hratio0 h1
    have hq : (missingCount col0 : ℚ) < (col0.length : ℚ) := by
      have := (div_lt_one hpos).mp this
      exact this
    exact_mod_cast hq
  have hall := imputeCol_isSome hmisslt
  have hclt : i < (imputeCol col0).length := by
    rw [length_imputeCol]
    omega
  have : c ∈ imputeCol col0 := by
    rw [← hcdef, ← hcoldef]
    exact getD_mem_of_lt _ i hclt none
  exact hall c this

/-- Missing ratios never exceed one. -/
theorem missingRatio_le_one (cells : List Cell) : missingRatio cells ≤ 1 := by
  unfold missingRatio
  rcases Nat.eq_zero_or_pos cells.length with h | h
  · simp [h]
  · have hle : (missingCount cells : ℚ) ≤ (cells.length : ℚ) := by
      exact_mod_cast List.countP_le_length _
    have hpos : (0 : ℚ) < (cells.length : ℚ) := by exact_mod_cast h
    rw [div_le_one hpos]
    exact hle

/-- Filling with NaN changes nothing. -/
theorem fillna_none (cells : List Cell) : fillna none cells = cells := by
  unfold fillna
  conv_rhs => rw [← List.map_id cells]
  apply List.map_congr_left
  intro c _
  cases c <;> rfl

/-- Positional read in a range list. -/
theorem getD_range (m j : Nat) (h : j < m) : (List.range m).getD j 0 = j := by
  rw [List.getD_eq_getElem?_getD, List.getElem?_eq_getElem (by simpa using h)]
  simp

/-- Columns of a reassembled table. -/
theorem colAt_tableOfCols (names : List String) (cs : List (List Cell))
    (n j2 : Nat) (h : j2 < cs.length) :
    colAt (tableOfCols names cs n) j2
      = (List.range n).map (fun i => (cs.getD j2 []).getD i none) := by
  simp only [colAt, tableOfCols, List.map_map]
  apply List.map_congr_left
  intro i _
  exact getD_map_lt _ _ _ h _ []

/-- Columns of `clean_missing_values` are the imputations of the kept
columns of the input. -/
theorem colAt_clean_missing_values (t : Table) (threshold : ℚ) (j2 : Nat)
    (h : j2 < (keptIdxs t threshold).length) :
    colAt (clean_missing_values t threshold) j2
      = imputeCol (colAt t ((keptIdxs t threshold).getD j2 0)) := by
  simp only [clean_missing_values]
  have hlen : j2 < ((columnsOf (dropCols t threshold)).map imputeCol).length := by
    simp [columnsOf, cols_dropCols, dropCols, h]
  rw [colAt_tableOfCols _ _ _ _ hlen]
  have hcs : ((columnsOf (dropCols t threshold)).map imputeCol).getD j2 []
      = imputeCol (colAt t ((keptIdxs t threshold).getD j2 0)) := by
    have h2 : j2 < (columnsOf (dropCols t threshold)).length := by
      simpa using hlen
    rw [getD_map_lt imputeCol _ _ h2 _ []]
    congr 1
    simp only [columnsOf]
    have h3 : j2 < (List.range (dropCols t threshold).cols.length).length := by
      simpa [columnsOf] using h2
    rw [getD_map_lt (colAt (dropCols t threshold)) _ _ h3 _ 0]
    rw [getD_range _ _ (by simpa [cols_dropCols, dropCols] using h)]
    exact colAt_dropCols t threshold j2 h
  rw [hcs]
  have hlencol : (imputeCol (colAt t ((keptIdxs t threshold).getD j2 0))).length
      = (dropCols t threshold).rows.length := by
    rw [length_imputeCol, length_colAt, rows_dropCols]
  rw [← hlencol]
  exact getD_range_eq_self _

/-- C2: for every input table and every drop threshold in [0,1), the table
returned by `clean_missing_values` contains no missing values in any
surviving column. -/
theorem c2_no_missing_after_clean (t : Table) (threshold : ℚ)
    (h0 : 0 ≤ threshold) (h1 : threshold < 1) :
    noMissing (clean_missing_values t threshold) = true := by
  unfold noMissing
  rw [List.all_eq_true]
  intro r hr
  rw [List.all_eq_true]
  intro c hc
  exact clean_missing_values_isSome t threshold h1 r hr c hc

/-- Example table with scattered missing values, for the witness of C2. -/
def mvExample : Table :=
  { cols := ["a", "b"],
    rows := [[some (Val.num 1), none],
             [none, some (Val.str "x")],
             [some (Val.num 5), some (Val.str "x")]] }

/-- Witness for C2 at a concrete table and threshold 0.5. -/
theorem c2_no_missing_after_clean_witness :
    (0 : ℚ) ≤ 1/2 ∧ (1/2 : ℚ) < 1 ∧
      noMissing (clean_missing_values mvExample (1/2)) = true :=
  ⟨by norm_num, by norm_num,
    c2_no_missing_after_clean mvExample (1/2) (by norm_num) (by norm_num)⟩

/-- C8: IQR outlier detection with multiplier 1.5 on the single numeric
column [1, 2, 3, 4, 5, 100] flags exactly the value 100 and none of the
values 1 through 5 (with pandas linear-interpolation quartiles,
Q1 = 2.25, Q3 = 4.75, upper bound 8.5 < 100). -/
theorem c8_iqr_flags_only_hundred :
    identify_outliers_iqr
      [some (Val.num 1), some (Val.num 2), some (Val.num 3),
       some (Val.num 4), some (Val.num 5), some (Val.num 100)] (3/2)
    = [false, false, false, false, false, true] := by decide

/-- C9: the validator returns a false verdict exactly when the table has
zero rows; any missing-value findings in identifier columns only join the
diagnostics and never flip a nonempty table to failure. -/
theorem c9_validator_fails_iff_empty (t : Table) :
    ((validate_cleaned_data t).1 = true) ↔ 0 < t.rows.length := by
  unfold validate_cleaned_data
  by_cases h : 0 < t.rows.length <;> simp [h]

/-- Example table for claim 3: a single fully missing numeric column. -/
def allMissingExample : Table := { cols := ["x"], rows := [[none]] }

/-- C3 counterexample: with drop threshold 1.0 and an input whose only
column is a 100 percent missing numeric column, `clean_missing_values`
neither drops the column nor fails in any way: it returns the table
unchanged, missing value included. No DataQualityError exists anywhere in
the source, so the claimed abort cannot happen. -/
theorem c3_counterexample :
    clean_missing_values allMissingExample 1 = allMissingExample ∧
      noMissing (clean_missing_values allMissingExample 1) = false := by
  constructor <;> decide

/-- C3 amended: with drop threshold at or above 1.0, a fully missing
column survives the drop step and comes back with every value still
missing; no error of any kind is raised (the function is total and the
source has no DataQualityError), so the stage silently keeps the NaN
column. -/
theorem c3_amended (t : Table) (threshold : ℚ) (j : Nat)
    (hthr : 1 ≤ threshold) (hj : j < t.cols.length)
    (hcol : ∀ c ∈ colAt t j, c = none) :
    ∃ j2, j2 < (clean_missing_values t threshold).cols.length ∧
      (clean_missing_values t threshold).cols.getD j2 ""
        = t.cols.getD j "" ∧
      ∀ c ∈ colAt (clean_missing_values t threshold) j2, c = none := by
  have hkept : j ∈ keptIdxs t threshold := by
    unfold keptIdxs
    refine List.mem_filter.mpr ⟨List.mem_range.mpr hj, ?_⟩
    simp only [Bool.not_eq_true', decide_eq_false_iff_not, not_lt]
    exact le_trans (missingRatio_le_one _) hthr
  have hlt : (keptIdxs t threshold).indexOf j < (keptIdxs t threshold).length :=
    List.indexOf_lt_length.mpr hkept
  refine ⟨(keptIdxs t threshold).indexOf j, ?_, ?_, ?_⟩
  · simpa [clean_missing_values, tableOfCols, cols_dropCols, dropCols] using hlt
  · have hget : (keptIdxs t threshold).getD ((keptIdxs t threshold).indexOf j) 0 = j := by
      rw [List.getD_eq_getElem?_getD, List.getElem?_eq_getElem hlt]
      simp [List.getElem_indexOf]
    simp only [clean_missing_values, tableOfCols, dropCols]
    rw [getD_map_lt _ _ _ hlt _ 0, hget]
  · have hget : (keptIdxs t threshold).getD ((keptIdxs t threshold).indexOf j) 0 = j := by
      rw [List.getD_eq_getElem?_getD, List.getElem?_eq_getElem hlt]
      simp [List.getElem_indexOf]
    rw [colAt_clean_missing_values t threshold _ hlt, hget]
    intro c hc
    by_cases hzero : missingCount (colAt t j) = 0
    · have : ∀ x ∈ colAt t j, x.isSome := isSome_of_missingCount_zero hzero
      rw [imputeCol, if_pos hzero] at hc
      have := hcol c hc
      exact this
    · have hnumcol : isNumericCol (colAt t j) = true := by
        rw [isNumericCol, List.all_eq_true]
        intro x hx
        rw [hcol x hx]
        rfl
      have hnums : nums (colAt t j) = [] := by
        rw [nums, List.filterMap_eq_nil]
        intro x hx
        rw [hcol x hx]
        rfl
      have hmed : medianQ ([] : List ℚ) = none := by decide
      rw [imputeCol, if_neg hzero, if_pos hnumcol, hnums, hmed] at hc
      simp only [Option.map_none'] at hc
      rw [fillna_none] at hc
      exact hcol c hc

/-- Witness for the amended C3 at the concrete all-missing table. -/
theorem c3_amended_witness :
    (1 : ℚ) ≤ 1 ∧ 0 < allMissingExample.cols.length ∧
      (∀ c ∈ colAt allMissingExample 0, c = none) ∧
      ∃ j2, j2 < (clean_missing_values allMissingExample 1).cols.length ∧
        (clean_missing_values allMissingExample 1).cols.getD j2 ""
          = allMissingExample.cols.getD 0 "" ∧
        ∀ c ∈ colAt (clean_missing_values allMissingExample 1) j2, c = none :=
  ⟨le_refl 1, by decide, by decide,
    c3_amended allMissingExample 1 0 (le_refl 1) (by decide) (by decide)⟩

/-- Present-cell count of a column read, as a row count. -/
theorem notnaCount_map_getD (rows : List Row) (j : Nat) :
    notnaCount (rows.map (fun r => r.getD j none))
      = rows.countP (fun r => (r.getD j none).isSome) := by
  unfold notnaCount
  rw [List.countP_map]
  rfl

/-- Splitting a column into present and missing cells. -/
theorem notna_add_missing (cells : List Cell) :
    notnaCount cells + missingCount cells = cells.length := by
  unfold notnaCount missingCount
  have h := List.length_eq_countP_add_countP (fun c : Cell => c.isSome) cells
  have hco : cells.countP (fun c => decide ¬(c.isSome = true))
      = cells.countP (fun c => c.isNone) := by
    apply List.countP_congr
    intro c _
    cases c <;> simp
  omega

/-- Rows surviving a cell filter that implies presence all have present
cells, so the notna count after such a filter is the row count. -/
theorem countP_isSome_filter (rows : List Row) (j : Nat) (p : Cell → Bool)
    (himp : ∀ c, p c = true → c.isSome = true) :
    (rows.filter (fun r => p (r.getD j none))).countP
        (fun r => (r.getD j none).isSome)
      = (rows.filter (fun r => p (r.getD j none))).length := by
  apply List.countP_eq_length.mpr
  intro r hr
  exact himp _ (List.mem_filter.mp hr).2

/-- Example table for claim 4: one usdret column, one row, value missing. -/
def c4Example : Table := { cols := ["usdret"], rows := [[none]] }

/-- C4 counterexample: on this table the returns criterion of the REIT
filter chain removes its only row, yet the chain reports 0 rows removed for
that criterion, because the source computes the count as a difference of
notna counts. -/
theorem c4_counterexample :
    (reit_apply_filters c4Example).2 = [("valid_returns", 0)] ∧
      c4Example.rows.length = 1 ∧
      (reit_apply_filters c4Example).1.rows.length = 0 := by
  refine ⟨?_, ?_, ?_⟩ <;> decide

/-- C4 amended: every criterion is evaluated against the table left by the
prior criteria (that is how `reit_apply_filters` and
`climate_apply_filters` chain the states), and the climate criteria and the
REIT rtype criterion report exactly the rows they removed; but the REIT
assets and prices criteria under-report by exactly the number of rows whose
target cell was missing at that point, and the REIT returns criterion
always reports zero. -/
theorem c4_amended (u : Table) :
    (hasCol u "assets" = true →
      reitReported2 u
        = ((u.rows.length : Int) - ((reitFilter2 u).rows.length : Int))
          - (missingCount (columnOf u "assets") : Int))
  ∧ reitReported3 u = 0
  ∧ (hasCol u "usdprc" = true →
      reitReported4 u
        = ((u.rows.length : Int) - ((reitFilter4 u).rows.length : Int))
          - (missingCount (columnOf u "usdprc") : Int))
  ∧ reitReported5 u = (u.rows.length : Int) - ((reitFilter5 u).rows.length : Int)
  ∧ climateReported2 u = (u.rows.length : Int) - ((climateFilter2 u).rows.length : Int)
  ∧ climateReported3 u = (u.rows.length : Int) - ((climateFilter3 u).rows.length : Int)
  ∧ climateReported4 u = (u.rows.length : Int) - ((climateFilter4 u).rows.length : Int)
  ∧ climateReported5 u = (u.rows.length : Int) - ((climateFilter5 u).rows.length : Int) := by
  refine ⟨?_, ?_, ?_, rfl, rfl, rfl, rfl, rfl⟩
  · intro h
    have hj : reitFilter2 u
        = filterRows u (fun r => cellGeNum (r.getD (colIdx u "assets") none) 100) := by
      rw [reitFilter2, if_pos h]
    have hA : notnaCount (columnOf (reitFilter2 u) "assets")
        = (reitFilter2 u).rows.length := by
      rw [hj]
      show notnaCount ((u.rows.filter _).map (fun r => r.getD (colIdx u "assets") none))
        = (u.rows.filter _).length
      rw [notnaCount_map_getD]
      apply countP_isSome_filter u.rows (colIdx u "assets")
        (fun c => cellGeNum c 100)
      intro c hc
      cases c with
      | none => simp [cellGeNum, numOf] at hc
      | some v => rfl
    have hB : notnaCount (columnOf u "assets")
        + missingCount (columnOf u "assets") = u.rows.length := by
      rw [notna_add_missing]
      simp [columnOf, colAt]
    unfold reitReported2
    omega
  · by_cases h : hasCol u "usdret" = true
    · have hj : reitFilter3 u
          = filterRows u (fun r => (r.getD (colIdx u "usdret") none).isSome) := by
        rw [reitFilter3, if_pos h]
      have hA : notnaCount (columnOf (reitFilter3 u) "usdret")
          = (reitFilter3 u).rows.length := by
        rw [hj]
        show notnaCount ((u.rows.filter _).map (fun r => r.getD (colIdx u "usdret") none))
          = (u.rows.filter _).length
        rw [notnaCount_map_getD]
        exact countP_isSome_filter u.rows (colIdx u "usdret") (fun c => c.isSome)
          (fun c hc => hc)
      have hB : notnaCount (columnOf u "usdret")
          = u.rows.countP (fun r => (r.getD (colIdx u "usdret") none).isSome) := by
        exact notnaCount_map_getD u.rows (colIdx u "usdret")
      have hC : (reitFilter3 u).rows.length
          = u.rows.countP (fun r => (r.getD (colIdx u "usdret") none).isSome) := by
        rw [hj]
        show (u.rows.filter _).length = _
        rw [← List.countP_eq_length_filter]
      unfold reitReported3
      omega
    · have hj : reitFilter3 u = u := by
        rw [reitFilter3, if_neg h]
      unfold reitReported3
      rw [hj]
      omega
  · intro h
    have hj : reitFilter4 u
        = filterRows u (fun r => (r.getD (colIdx u "usdprc") none).isSome
            && cellGtNum (r.getD (colIdx u "usdprc") none) 0) := by
      rw [reitFilter4, if_pos h]
    have hA : notnaCount (columnOf (reitFilter4 u) "usdprc")
        = (reitFilter4 u).rows.length := by
      rw [hj]
      show notnaCount ((u.rows.filter _).map (fun r => r.getD (colIdx u "usdprc") none))
        = (u.rows.filter _).length
      rw [notnaCount_map_getD]
      exact countP_isSome_filter u.rows (colIdx u "usdprc")
        (fun c => c.isSome && cellGtNum c 0)
        (fun c hc => by
          rcases Bool.and_eq_true_iff.mp hc with h1
          exact h1.1)
    have hB : notnaCount (columnOf u "usdprc")
        + missingCount (columnOf u "usdprc") = u.rows.length := by
      rw [notna_add_missing]
      simp [columnOf, colAt]
    unfold reitReported4
    omega

/-- Example table for the witness of the amended C4. -/
def c4wExample : Table :=
  { cols := ["assets", "usdprc"],
    rows := [[none, some (Val.num 5)],
             [some (Val.num 50), none],
             [some (Val.num 200), some (Val.num 1)]] }

/-- Witness for the amended C4 at a concrete table with missing cells. -/
theorem c4_amended_witness :
    hasCol c4wExample "assets" = true ∧ hasCol c4wExample "usdprc" = true ∧
      reitReported2 c4wExample
        = ((c4wExample.rows.length : Int) - ((reitFilter2 c4wExample).rows.length : Int))
          - (missingCount (columnOf c4wExample "assets") : Int) ∧
      reitReported4 c4wExample
        = ((c4wExample.rows.length : Int) - ((reitFilter4 c4wExample).rows.length : Int))
          - (missingCount (columnOf c4wExample "usdprc") : Int) :=
  ⟨by decide, by decide,
    (c4_amended c4wExample).1 (by decide),
    (c4_amended c4wExample).2.2.1 (by decide)⟩

/-- Example table for claim 7: a single non-numeric column with a duplicate
row, so that the stages after outlier handling act visibly. -/
def c7Example : Table :=
  { cols := ["name"], rows := [[some (Val.str "a")], [some (Val.str "a")]] }

/-- C7 counterexample: with the unknown outlier method bogus, the whole
REIT pipeline completes without raising anything on a table that has no
numeric columns, and the stages all run (deduplication removes the
duplicate row): the configuration is never validated before or outside the
per-column loop of the outlier stage. -/
theorem c7_counterexample :
    (reitPipeline c7Example "bogus").toOption
      = some { cols := ["name"], rows := [[some (Val.str "a")]] } := by
  decide

/-- C7 amended: an unknown outlier method raises its ValueError inside the
outlier stage, which runs only after missing-value handling has already
transformed the table; the error surfaces exactly when the cleaned table
still has at least one numeric column, and with no numeric column the
pipeline completes normally despite the invalid configuration. -/
theorem c7_amended (t : Table) (method : String)
    (h1 : method ≠ "iqr") (h2 : method ≠ "zscore") :
    ((reitPipeline t method).toOption = none
      ↔ numericColIdxs (clean_missing_values t MISSING_VALUE_THRESHOLD) ≠ []) := by
  cases hcase : numericColIdxs (clean_missing_values t MISSING_VALUE_THRESHOLD) with
  | nil =>
    simp [reitPipeline, handle_outliers, hcase, handleOutliersGo, Except.toOption]
  | cons j js =>
    simp [reitPipeline, handle_outliers, hcase, handleOutliersGo, h1, h2,
      Except.toOption]

/-- Example table for the witness of the amended C7: one numeric column. -/
def c7wExample : Table := { cols := ["x"], rows := [[some (Val.num 3)]] }

/-- Witness for the amended C7 at a concrete numeric table. -/
theorem c7_amended_witness :
    "bogus" ≠ "iqr" ∧ "bogus" ≠ "zscore" ∧
      ((reitPipeline c7wExample "bogus").toOption = none
        ↔ numericColIdxs (clean_missing_values c7wExample MISSING_VALUE_THRESHOLD) ≠ []) :=
  ⟨by decide, by decide, c7_amended c7wExample "bogus" (by decide) (by decide)⟩

/-- Constant columns have constant numeric content. -/
theorem nums_const {cells : List Cell} {q : ℚ}
    (h : ∀ c ∈ cells, c = some (Val.num q)) :
    nums cells = List.replicate cells.length q := by
  induction cells with
  | nil => rfl
  | cons c cs ih =>
    have hc := h c (List.mem_cons_self c cs)
    have hrest : ∀ x ∈ cs, x = some (Val.num q) :=
      fun x hx => h x (List.mem_cons_of_mem _ hx)
    simp [nums, hc, numOf, List.replicate_succ, ← ih hrest, nums]

/-- Mean of a constant list. -/
theorem meanQ_replicate (n : Nat) (q : ℚ) (h : 0 < n) :
    meanQ (List.replicate n q) = q := by
  unfold meanQ
  rw [List.sum_replicate, List.length_replicate, nsmul_eq_mul]
  have hne : (n : ℚ) ≠ 0 := by exact_mod_cast Nat.pos_iff_ne_zero.mp h
  field_simp

/-- Sample variance of a constant list vanishes. -/
theorem varSamp_replicate (n : Nat) (q : ℚ) :
    varSamp (List.replicate n q) = 0 := by
  rcases Nat.eq_zero_or_pos n with h | h
  · subst h
    simp [varSamp]
  · unfold varSamp
    rw [meanQ_replicate n q h, List.map_replicate]
    simp

/-- Population variance of a constant list vanishes. -/
theorem varPop_replicate (n : Nat) (q : ℚ) :
    varPop (List.replicate n q) = 0 := by
  rcases Nat.eq_zero_or_pos n with h | h
  · subst h
    simp [varPop]
  · unfold varPop
    rw [meanQ_replicate n q h, List.map_replicate]
    simp

/-- Removal by an all-false mask at least as long as the rows keeps every
row. -/
theorem removeByMask_all_false (rows : List Row) (mask : List Bool)
    (hlen : rows.length ≤ mask.length) (hfalse : ∀ b ∈ mask, b = false) :
    removeByMask rows mask = rows := by
  induction rows generalizing mask with
  | nil => simp [removeByMask]
  | cons r rs ih =>
    cases mask with
    | nil => simp at hlen
    | cons b ms =>
      have hb := hfalse b (List.mem_cons_self b ms)
      subst hb
      simp only [removeByMask, List.zip_cons_cons, List.filterMap_cons]
      simp only [if_neg (by simp : ¬(false = true))]
      have := ih ms (by simpa using hlen)
        (fun x hx => hfalse x (List.mem_cons_of_mem _ hx))
      simpa [removeByMask] using this

/-- C6: on a constant numeric column (standard deviation zero) neither
z-score detector flags any value and no division error can occur (the
variance-positivity guard encodes the NaN z-scores of the float code), and
the REMOVE treatment of the climate pipeline drops no rows for such a
column. -/
theorem c6_zscore_constant_flags_nothing (cells : List Cell) (q thr : ℚ)
    (hconst : ∀ c ∈ cells, c = some (Val.num q)) :
    zscoreMaskClimate cells thr = cells.map (fun _ => false)
  ∧ identify_outliers_zscore cells thr = cells.map (fun _ => false)
  ∧ ∀ rows : List Row, rows.length ≤ cells.length →
      removeByMask rows (zscoreMaskClimate cells thr) = rows := by
  have hnums : nums cells = List.replicate cells.length q := nums_const hconst
  have hvs : varSamp (nums cells) = 0 := by rw [hnums]; exact varSamp_replicate _ _
  have hvp : varPop (nums cells) = 0 := by rw [hnums]; exact varPop_replicate _ _
  have hmask : zscoreMaskClimate cells thr = cells.map (fun _ => false) := by
    unfold zscoreMaskClimate
    apply List.map_congr_left
    intro c hc
    rw [hconst c hc]
    simp [numOf, hvs]
  refine ⟨hmask, ?_, ?_⟩
  · unfold identify_outliers_zscore
    have hany : cells.any (fun c => (numOf c).isNone) = false := by
      rw [List.any_eq_false]
      intro c hc
      rw [hconst c hc]
      simp [numOf]
    rw [if_neg (by simp [hany])]
    apply List.map_congr_left
    intro c hc
    rw [hconst c hc]
    simp [numOf, hvp]
  · intro rows hlen
    apply removeByMask_all_false
    · rw [hmask, List.length_map]
      exact hlen
    · rw [hmask]
      intro b hb
      rcases List.mem_map.mp hb with ⟨c, _, hcb⟩
      exact hcb.symm

/-- Constant column for the witness of C6. -/
def c6wCells : List Cell := [some (Val.num 5), some (Val.num 5), some (Val.num 5)]

/-- Rows aligned with the constant column for the witness of C6. -/
def c6wRows : List Row := [[some (Val.num 5)], [some (Val.num 5)], [some (Val.num 5)]]

/-- Witness for C6 at a concrete constant column. -/
theorem c6_zscore_constant_flags_nothing_witness :
    (∀ c ∈ c6wCells, c = some (Val.num 5)) ∧
      zscoreMaskClimate c6wCells 3 = c6wCells.map (fun _ => false) ∧
      identify_outliers_zscore c6wCells 3 = c6wCells.map (fun _ => false) ∧
      removeByMask c6wRows (zscoreMaskClimate c6wCells 3) = c6wRows :=
  ⟨by decide,
    (c6_zscore_constant_flags_nothing c6wCells 5 3 (by decide)).1,
    (c6_zscore_constant_flags_nothing c6wCells 5 3 (by decide)).2.1,
    (c6_zscore_constant_flags_nothing c6wCells 5 3 (by decide)).2.2 c6wRows (by decide)⟩

/-- Unfolding equation for `dedupeSpec` on nil. -/
theorem dedupeSpec_nil : dedupeSpec [] = [] := by
  rw [dedupeSpec]

/-- Unfolding equation for `dedupeSpec` on cons. -/
theorem dedupeSpec_cons (r : Row) (rs : List Row) :
    dedupeSpec (r :: rs) = r :: dedupeSpec (rs.filter (fun x => x ≠ r)) := by
  rw [dedupeSpec]

/-- Filtering twice by one predicate equals filtering once. -/
theorem filter_idem (p : Row → Bool) (l : List Row) :
    (l.filter p).filter p = l.filter p := by
  rw [List.filter_filter]
  apply List.filter_congr
  intro x _
  exact Bool.and_self _

/-- Deduplication keeping first occurrences commutes with filtering. -/
theorem dedupeSpec_filter (p : Row → Bool) (l : List Row) :
    (dedupeSpec l).filter p = dedupeSpec (l.filter p) := by
  induction l using dedupeSpec.induct with
  | case1 => simp [dedupeSpec_nil]
  | case2 r rs ih =>
    rw [dedupeSpec_cons]
    by_cases hp : p r = true
    · rw [List.filter_cons_of_pos hp, ih, List.filter_cons_of_pos hp, dedupeSpec_cons]
      congr 1
      rw [List.filter_filter, List.filter_filter]
      congr 1
      apply List.filter_congr
      intro a _
      exact Bool.and_comm _ _
    · have hp2 : p r = false := by simpa using hp
      rw [List.filter_cons_of_neg (by simp [hp2]), ih,
        List.filter_cons_of_neg (by simp [hp2])]
      congr 1
      rw [List.filter_filter]
      apply List.filter_congr
      intro x _
      by_cases hpx : p x = true
      · have hxr : x ≠ r := by
          intro he
          subst he
          simp [hp2] at hpx
        simp [hpx, hxr]
      · have hpx2 : p x = false := by simpa using hpx
        simp [hpx2]

/-- Deduplication keeping first occurrences is idempotent. -/
theorem dedupeSpec_idem (l : List Row) :
    dedupeSpec (dedupeSpec l) = dedupeSpec l := by
  induction l using dedupeSpec.induct with
  | case1 => simp [dedupeSpec_nil]
  | case2 r rs ih =>
    rw [dedupeSpec_cons, dedupeSpec_cons, dedupeSpec_filter, filter_idem, ih]

/-- The kept-rows recursion computes the spec deduplication of the rows not
seen yet. -/
theorem dropDupAux_eq (l : List Row) : ∀ seen : List Row,
    dropDupAux seen l = dedupeSpec (l.filter (fun x => !seen.contains x)) := by
  induction l with
  | nil => intro seen; simp [dropDupAux, dedupeSpec_nil]
  | cons r rs ih =>
    intro seen
    by_cases hc : seen.contains r = true
    · rw [dropDupAux, if_pos hc, List.filter_cons_of_neg (by simpa using hc), ih]
    · have hc2 : seen.contains r = false := by simpa using hc
      rw [dropDupAux, if_neg hc, List.filter_cons_of_pos (by simpa using hc2),
        dedupeSpec_cons, ih (r :: seen)]
      congr 2
      rw [List.filter_filter]
      apply List.filter_congr
      intro x _
      show (!(r :: seen).contains x) = (decide (x ≠ r) && !seen.contains x)
      by_cases hxr : x = r
      · subst hxr
        simp
      · simp [List.contains_cons, hxr, bne_iff_ne]

/-- Deduplication of the raw rows. -/
theorem dropDupAux_nil_eq (l : List Row) : dropDupAux [] l = dedupeSpec l := by
  rw [dropDupAux_eq l []]
  congr 1
  apply List.filter_eq_self.mpr
  intro x _
  simp

/-- Rows of the spec deduplication come from the input. -/
theorem mem_dedupeSpec {x : Row} : ∀ {l : List Row}, x ∈ dedupeSpec l → x ∈ l := by
  intro l
  induction l using dedupeSpec.induct with
  | case1 => simp [dedupeSpec_nil]
  | case2 r rs ih =>
    rw [dedupeSpec_cons]
    intro hx
    rcases List.mem_cons.mp hx with h | h
    · exact h ▸ List.mem_cons_self r rs
    · have := ih h
      exact List.mem_cons_of_mem _ (List.mem_filter.mp this).1

/-- The spec deduplication has no duplicate rows. -/
theorem dedupeSpec_nodup (l : List Row) : (dedupeSpec l).Nodup := by
  induction l using dedupeSpec.induct with
  | case1 => simp [dedupeSpec_nil]
  | case2 r rs ih =>
    rw [dedupeSpec_cons]
    refine List.nodup_cons.mpr ⟨?_, ih⟩
    intro hr
    have := (List.mem_filter.mp (mem_dedupeSpec hr)).2
    simp at this

/-- A zero duplicate count means the kept-rows recursion is the
identity. -/
theorem dropDupAux_of_mask_zero (l : List Row) : ∀ seen : List Row,
    (dupMaskAux seen l).count true = 0 → dropDupAux seen l = l := by
  induction l with
  | nil => intro seen _; rfl
  | cons r rs ih =>
    intro seen h
    rw [dupMaskAux, List.count_cons] at h
    cases hc : seen.contains r with
    | true =>
      rw [hc] at h
      simp at h
    | false =>
      rw [hc] at h
      simp at h
      rw [dropDupAux, if_neg (by simpa using hc), ih _ h]

/-- A duplicate-free row list disjoint from the seen set has duplicate
count zero. -/
theorem dupMask_zero_of_nodup (l : List Row) : ∀ seen : List Row,
    l.Nodup → (∀ x ∈ l, ¬ x ∈ seen) → (dupMaskAux seen l).count true = 0 := by
  induction l with
  | nil => intro seen _ _; rfl
  | cons r rs ih =>
    intro seen hnd hdisj
    rw [dupMaskAux, List.count_cons]
    have hc : seen.contains r = false := by
      have := hdisj r (List.mem_cons_self r rs)
      simpa using this
    have hrest : (dupMaskAux (r :: seen) rs).count true = 0 := by
      apply ih
      · exact (List.nodup_cons.mp hnd).2
      · intro x hx
        intro hmem
        rcases List.mem_cons.mp hmem with h | h
        · exact (List.nodup_cons.mp hnd).1 (h ▸ hx)
        · exact hdisj x (List.mem_cons_of_mem _ hx) h
    rw [hc]
    simpa using hrest

/-- C5: deduplication is idempotent and order preserving: applying
`remove_duplicates` twice equals applying it once, the column set is
untouched, and the resulting rows are exactly those of the specification
recursion that keeps the first occurrence of every group of equal rows and
removes all later exact matches. -/
theorem c5_remove_duplicates_idempotent_keeps_first (t : Table) :
    remove_duplicates (remove_duplicates t) = remove_duplicates t
  ∧ (remove_duplicates t).cols = t.cols
  ∧ (remove_duplicates t).rows = dedupeSpec t.rows := by
  have rows_eq : (remove_duplicates t).rows = dedupeSpec t.rows := by
    unfold remove_duplicates
    split
    · exact dropDupAux_nil_eq t.rows
    · next h =>
      have hz : (dupMaskAux [] t.rows).count true = 0 := by omega
      exact (dropDupAux_of_mask_zero t.rows [] hz).symm.trans (dropDupAux_nil_eq t.rows)
  have cols_eq : (remove_duplicates t).cols = t.cols := by
    unfold remove_duplicates
    split <;> rfl
  refine ⟨?_, cols_eq, rows_eq⟩
  have hnodup : (remove_duplicates t).rows.Nodup := by
    rw [rows_eq]
    exact dedupeSpec_nodup t.rows
  have hzero : (dupMaskAux [] (remove_duplicates t).rows).count true = 0 :=
    dupMask_zero_of_nodup _ [] hnodup (fun x _ hx => by simp at hx)
  conv_lhs => rw [remove_duplicates]
  rw [if_neg (by omega)]

/-- Contained names have an index. -/
theorem indexOf?_isSome_of_contains {l : List String} {c : String}
    (h : l.contains c = true) : ∃ j, l.indexOf? c = some j := by
  cases hp : l.indexOf? c with
  | some j => exact ⟨j, rfl⟩
  | none =>
    rw [List.indexOf?_eq_none_iff] at hp
    have hc : c ∈ l := by simpa using h
    exact absurd (by simp : (c == c) = true) (hp c hc)

/-- Shape of a positional column replacement with cells from a column
read. -/
theorem setColAt_shape (t : Table) (j : Nat) (cells : List Cell)
    (h : cells.length = t.rows.length) :
    (setColAt t j cells).cols = t.cols
      ∧ (setColAt t j cells).rows.length = t.rows.length := by
  refine ⟨rfl, ?_⟩
  simp [setColAt, List.length_zipWith, h]

/-- Winsorisation is positionwise. -/
theorem length_winsorizeCells (cells : List Cell) :
    (winsorizeCells cells).length = cells.length := by
  simp [winsorizeCells]

/-- Shape of the REIT outlier loop under the iqr method: it always
succeeds and preserves both dimensions. -/
theorem handleOutliersGo_iqr_shape (k : ℚ) (js : List Nat) :
    ∀ (t : Table) (acc : Nat),
      ∃ p, handleOutliersGo "iqr" k js t acc = Except.ok p
        ∧ p.1.cols = t.cols ∧ p.1.rows.length = t.rows.length := by
  induction js with
  | nil => exact fun t acc => ⟨(t, acc), rfl, rfl, rfl⟩
  | cons j js ih =>
    intro t acc
    rw [handleOutliersGo, if_pos rfl]
    dsimp only
    set cnt := (identify_outliers_iqr (colAt t j) k).count true with hcnt
    set t2 := if 0 < cnt then setColAt t j (winsorizeCells (colAt t j)) else t with ht2
    have hshape : t2.cols = t.cols ∧ t2.rows.length = t.rows.length := by
      rw [ht2]
      split
      · exact setColAt_shape t j _ (by rw [length_winsorizeCells, length_colAt])
      · exact ⟨rfl, rfl⟩
    obtain ⟨p, hp, hc, hr⟩ := ih t2 (acc + cnt)
    exact ⟨p, hp, hc.trans hshape.1, hr.trans hshape.2⟩

/-- Row removal by a mask never lengthens the rows. -/
theorem removeByMask_length_le (rows : List Row) (mask : List Bool) :
    (removeByMask rows mask).length ≤ rows.length := by
  calc (removeByMask rows mask).length
      ≤ (rows.zip mask).length := List.length_filterMap_le _ _
    _ ≤ rows.length := by
        rw [List.length_zip]
        omega

/-- Shape of the climate outlier stage: columns unchanged and the row count
never grows. -/
theorem handle_outliers_zscore_shape (t : Table) (thr : ℚ) :
    (handle_outliers_zscore t thr).cols = t.cols
      ∧ (handle_outliers_zscore t thr).rows.length ≤ t.rows.length := by
  unfold handle_outliers_zscore
  generalize numericColIdxs t = js
  induction js generalizing t with
  | nil => exact ⟨rfl, le_refl _⟩
  | cons j js ih =>
    rw [List.foldl_cons]
    obtain ⟨hc, hr⟩ := ih
      { cols := t.cols,
        rows := removeByMask t.rows (zscoreMaskClimate (colAt t j) thr) }
    refine ⟨hc, le_trans hr ?_⟩
    exact removeByMask_length_le _ _

/-- The kept-rows recursion never lengthens the rows. -/
theorem dropDupAux_length_le (l : List Row) : ∀ seen : List Row,
    (dropDupAux seen l).length ≤ l.length := by
  induction l with
  | nil => intro seen; simp [dropDupAux]
  | cons r rs ih =>
    intro seen
    rw [dropDupAux]
    split
    · exact le_trans (ih seen) (by rw [List.length_cons]; omega)
    · simpa using ih (r :: seen)

/-- Shape of deduplication. -/
theorem remove_duplicates_shape (t : Table) :
    (remove_duplicates t).cols = t.cols
      ∧ (remove_duplicates t).rows.length ≤ t.rows.length := by
  unfold remove_duplicates
  split
  · exact ⟨rfl, dropDupAux_length_le t.rows []⟩
  · exact ⟨rfl, le_refl _⟩

/-- Shape of a row filter. -/
theorem filterRows_shape (t : Table) (p : Row → Bool) :
    (filterRows t p).cols = t.cols
      ∧ (filterRows t p).rows.length ≤ t.rows.length := by
  exact ⟨rfl, List.length_filter_le _ _⟩

/-- Shape of a column assignment: the columns stay put on overwrite, gain
the new name on append, and the row count never grows. -/
theorem setCol_shape (t : Table) (c : String) (cells : List Cell) :
    ((t.cols.contains c = true → (setCol t c cells).cols = t.cols)
      ∧ (t.cols.contains c = false → (setCol t c cells).cols = t.cols ++ [c]))
      ∧ (setCol t c cells).rows.length ≤ t.rows.length := by
  unfold setCol
  constructor
  · constructor
    · intro h
      obtain ⟨j, hj⟩ := indexOf?_isSome_of_contains h
      rw [hj]
    · intro h
      cases hp : t.cols.indexOf? c with
      | none => rfl
      | some j =>
        exfalso
        have hne : List.indexOf? c t.cols ≠ none := by simp [hp]
        rw [Ne, List.indexOf?_eq_none_iff] at hne
        push_neg at hne
        obtain ⟨x, hx, hxc⟩ := hne
        have hxe : x = c := by simpa using hxc
        subst hxe
        have hnot : x ∉ t.cols := by simpa using h
        exact hnot hx
  · cases t.cols.indexOf? c <;>
      simp [List.length_zipWith]

/-- Shape of REIT filter 1: the rows can only shrink, and the columns are
unchanged except that a derived year column is appended exactly when a date
column is present and no year column exists yet. -/
theorem reitFilter1_shape (t : Table) :
    (reitFilter1 t).cols
        = t.cols ++ (if hasCol t "date" && !hasCol t "year" then ["year"] else [])
      ∧ (reitFilter1 t).rows.length ≤ t.rows.length := by
  unfold reitFilter1
  by_cases hd : hasCol t "date" = true
  · rw [if_pos hd]
    constructor
    · show (setCol t "year" ((columnOf t "date").map yearOfCell)).cols = _
      by_cases hy : hasCol t "year" = true
      · rw [(setCol_shape t "year" _).1.1 hy]
        simp [hd, hy]
      · have hy2 : t.cols.contains "year" = false := by
          simpa [hasCol] using hy
        rw [(setCol_shape t "year" _).1.2 hy2]
        have hyF : hasCol t "year" = false := hy2
        rw [hd, hyF]
        simp
    · exact le_trans (List.length_filter_le _ _) (setCol_shape t "year" _).2
  · rw [if_neg hd]
    have hd2 : hasCol t "date" = false := by simpa using hd
    simp [hd2]

/-- Shape of REIT filter 2. -/
theorem reitFilter2_shape (t : Table) :
    (reitFilter2 t).cols = t.cols ∧ (reitFilter2 t).rows.length ≤ t.rows.length := by
  unfold reitFilter2
  split
  · exact filterRows_shape _ _
  · exact ⟨rfl, le_refl _⟩

/-- Shape of REIT filter 3. -/
theorem reitFilter3_shape (t : Table) :
    (reitFilter3 t).cols = t.cols ∧ (reitFilter3 t).rows.length ≤ t.rows.length := by
  unfold reitFilter3
  split
  · exact filterRows_shape _ _
  · exact ⟨rfl, le_refl _⟩

/-- Shape of REIT filter 4. -/
theorem reitFilter4_shape (t : Table) :
    (reitFilter4 t).cols = t.cols ∧ (reitFilter4 t).rows.length ≤ t.rows.length := by
  unfold reitFilter4
  split
  · exact filterRows_shape _ _
  · exact ⟨rfl, le_refl _⟩

/-- Shape of REIT filter 5. -/
theorem reitFilter5_shape (t : Table) :
    (reitFilter5 t).cols = t.cols ∧ (reitFilter5 t).rows.length ≤ t.rows.length := by
  unfold reitFilter5
  split
  · exact filterRows_shape _ _
  · exact ⟨rfl, le_refl _⟩

/-- Shape of climate filter 1: the date column is overwritten in place, so
the columns are unchanged. -/
theorem climateFilter1_shape (t : Table) :
    (climateFilter1 t).cols = t.cols
      ∧ (climateFilter1 t).rows.length ≤ t.rows.length := by
  unfold climateFilter1
  split
  · next hd =>
    constructor
    · exact (setCol_shape t "date" _).1.1 hd
    · exact le_trans (List.length_filter_le _ _) (setCol_shape t "date" _).2
  · exact ⟨rfl, le_refl _⟩

/-- Shape of climate filter 2. -/
theorem climateFilter2_shape (t : Table) :
    (climateFilter2 t).cols = t.cols
      ∧ (climateFilter2 t).rows.length ≤ t.rows.length := by
  unfold climateFilter2
  split
  · exact filterRows_shape _ _
  · exact ⟨rfl, le_refl _⟩

/-- Shape of climate filter 3. -/
theorem climateFilter3_shape (t : Table) :
    (climateFilter3 t).cols = t.cols
      ∧ (climateFilter3 t).rows.length ≤ t.rows.length := by
  unfold climateFilter3
  split
  · exact filterRows_shape _ _
  · exact ⟨rfl, le_refl _⟩

/-- Shape of climate filter 4. -/
theorem climateFilter4_shape (t : Table) :
    (climateFilter4 t).cols = t.cols
      ∧ (climateFilter4 t).rows.length ≤ t.rows.length := by
  unfold climateFilter4
  exact filterRows_shape _ _

/-- Shape of climate filter 5. -/
theorem climateFilter5_shape (t : Table) :
    (climateFilter5 t).cols = t.cols
      ∧ (climateFilter5 t).rows.length ≤ t.rows.length := by
  unfold climateFilter5
  split
  · exact filterRows_shape _ _
  · exact ⟨rfl, le_refl _⟩

/-- Shape of climate filter 6. -/
theorem climateFilter6_shape (t : Table) :
    (climateFilter6 t).cols = t.cols
      ∧ (climateFilter6 t).rows.length ≤ t.rows.length := by
  unfold climateFilter6
  split
  · exact filterRows_shape _ _
  · exact ⟨rfl, le_refl _⟩

/-- Example table for claim 1: a table with a date column and no year
column. -/
def c1Example : Table :=
  { cols := ["date"], rows := [[some (Val.str "2010-05-01")]] }

/-- C1 counterexample: the REIT filter stage grows the column count from 1
to 2 by appending the derived year column, so the stage-boundary invariant
columns_after less or equal columns_before fails. -/
theorem c1_counterexample :
    (reit_apply_filters c1Example).1.cols.length = 2
      ∧ c1Example.cols.length = 1 := by
  constructor <;> decide

/-- C1 amended: every stage preserves or reduces the row count; the
missing-value, outlier, deduplication and climate filter stages preserve or
reduce the column count; the REIT filter stage keeps all existing columns
but appends one derived year column exactly when a date column is present
and no year column exists, so only there the column count can grow, and by
at most one. -/
theorem c1_amended (t : Table) (thr k : ℚ) :
    (clean_missing_values t thr).rows.length = t.rows.length
  ∧ (clean_missing_values t thr).cols.length ≤ t.cols.length
  ∧ (∃ p, handle_outliers t "iqr" k = Except.ok p
        ∧ p.1.cols = t.cols ∧ p.1.rows.length = t.rows.length)
  ∧ (handle_outliers_zscore t k).cols = t.cols
  ∧ (handle_outliers_zscore t k).rows.length ≤ t.rows.length
  ∧ (remove_duplicates t).cols = t.cols
  ∧ (remove_duplicates t).rows.length ≤ t.rows.length
  ∧ (climate_apply_filters t).1.cols = t.cols
  ∧ (climate_apply_filters t).1.rows.length ≤ t.rows.length
  ∧ (reit_apply_filters t).1.rows.length ≤ t.rows.length
  ∧ (reit_apply_filters t).1.cols
      = t.cols ++ (if hasCol t "date" && !hasCol t "year" then ["year"] else []) := by
  have hreit1 := reitFilter1_shape t
  have hreit2 := reitFilter2_shape (reitFilter1 t)
  have hreit3 := reitFilter3_shape (reitFilter2 (reitFilter1 t))
  have hreit4 := reitFilter4_shape (reitFilter3 (reitFilter2 (reitFilter1 t)))
  have hreit5 := reitFilter5_shape
    (reitFilter4 (reitFilter3 (reitFilter2 (reitFilter1 t))))
  have hreitEq : (reit_apply_filters t).1
      = reitFilter5 (reitFilter4 (reitFilter3 (reitFilter2 (reitFilter1 t)))) := rfl
  have hcl1 := climateFilter1_shape t
  have hcl2 := climateFilter2_shape (climateFilter1 t)
  have hcl3 := climateFilter3_shape (climateFilter2 (climateFilter1 t))
  have hcl4 := climateFilter4_shape (climateFilter3 (climateFilter2 (climateFilter1 t)))
  have hcl5 := climateFilter5_shape
    (climateFilter4 (climateFilter3 (climateFilter2 (climateFilter1 t))))
  have hcl6 := climateFilter6_shape
    (climateFilter5 (climateFilter4 (climateFilter3 (climateFilter2 (climateFilter1 t)))))
  have hclEq : (climate_apply_filters t).1
      = climateFilter6 (climateFilter5 (climateFilter4
          (climateFilter3 (climateFilter2 (climateFilter1 t))))) := rfl
  refine ⟨rows_clean_missing_values t thr, cols_clean_missing_values t thr,
    handleOutliersGo_iqr_shape k (numericColIdxs t) t 0,
    (handle_outliers_zscore_shape t k).1, (handle_outliers_zscore_shape t k).2,
    (remove_duplicates_shape t).1, (remove_duplicates_shape t).2, ?_, ?_, ?_, ?_⟩
  · rw [hclEq, hcl6.1, hcl5.1, hcl4.1, hcl3.1, hcl2.1, hcl1.1]
  · rw [hclEq]
    exact le_trans hcl6.2 (le_trans hcl5.2 (le_trans hcl4.2
      (le_trans hcl3.2 (le_trans hcl2.2 hcl1.2))))
  · rw [hreitEq]
    exact le_trans hreit5.2 (le_trans hreit4.2 (le_trans hreit3.2
      (le_trans hreit2.2 hreit1.2)))
  · rw [hreitEq, hreit5.1, hreit4.1, hreit3.1, hreit2.1, hreit1.1]

/-- A disjunction of cell tests counts at most the sum of the separate
counts. -/
theorem countP_or_le (p q : ℚ → Bool) (l : List ℚ) :
    l.countP (fun x => p x || q x) ≤ l.countP p + l.countP q := by
  induction l with
  | nil => simp
  | cons a l ih =>
    rw [List.countP_cons, List.countP_cons, List.countP_cons]
    by_cases hp : p a = true <;> by_cases hq : q a = true <;>
      simp [hp, hq] <;> omega

/-- In a sorted list at most `kk` entries lie strictly below the entry of
rank `kk`. -/
theorem sorted_countP_lt_le : ∀ s : List ℚ, List.Sorted (· ≤ ·) s →
    ∀ kk : Nat, s.countP (fun x => decide (x < s.getD kk 0)) ≤ kk := by
  intro s
  induction s with
  | nil => intro _ kk; simp
  | cons a s ih =>
    intro hs kk
    cases kk with
    | zero =>
      have hges := (List.sorted_cons.mp hs).1
      rw [Nat.le_zero, List.countP_eq_zero]
      intro x hx
      rw [List.getD_cons_zero]
      rcases List.mem_cons.mp hx with h | h
      · subst h
        simp
      · simpa using not_lt.mpr (hges x h)
    | succ kk =>
      rw [List.getD_cons_succ, List.countP_cons]
      have hb := ih (List.sorted_cons.mp hs).2 kk
      have hif : (if decide (a < s.getD kk 0) = true then 1 else 0) ≤ 1 := by
        split <;> omega
      omega

/-- In a sorted list at most `length - 1 - j` entries lie strictly above
the entry of rank `j`, for `j` inside the list. -/
theorem sorted_countP_gt_le : ∀ s : List ℚ, List.Sorted (· ≤ ·) s →
    ∀ j : Nat, j < s.length →
      s.countP (fun x => decide (s.getD j 0 < x)) ≤ s.length - 1 - j := by
  intro s
  induction s with
  | nil => intro _ j hj; simp at hj
  | cons a s ih =>
    intro hs j hj
    cases j with
    | zero =>
      rw [List.getD_cons_zero, List.countP_cons]
      have h1 : s.countP (fun x => decide (a < x)) ≤ s.length :=
        List.countP_le_length _
      have h2 : (if decide (a < a) = true then 1 else 0) = 0 := by simp
      rw [h2, List.length_cons]
      omega
    | succ j =>
      rw [List.getD_cons_succ, List.countP_cons]
      have hjs : j < s.length := by
        rw [List.length_cons] at hj
        omega
      have hthr : a ≤ s.getD j 0 :=
        (List.sorted_cons.mp hs).1 _ (getD_mem_of_lt s j hjs 0)
      have hcontrib : (if decide (s.getD j 0 < a) = true then 1 else 0) = 0 := by
        rw [decide_eq_false (not_lt.mpr hthr)]
        simp
      have hb := ih (List.sorted_cons.mp hs).2 j hjs
      rw [hcontrib, List.length_cons]
      omega

/-- The sorted view of the numeric values is sorted. -/
theorem sortQ_sorted (xs : List ℚ) : List.Sorted (· ≤ ·) (sortQ xs) :=
  List.sorted_insertionSort _ xs

/-- The sorted view is a permutation of the numeric values. -/
theorem sortQ_perm (xs : List ℚ) : (sortQ xs).Perm xs :=
  List.perm_insertionSort _ xs

/-- Zip of a list with a mapped copy of itself. -/
theorem zip_self_map {α β : Type} (l : List α) (g : α → β) :
    l.zip (l.map g) = l.map (fun a => (a, g a)) := by
  induction l with
  | nil => rfl
  | cons a l ih => simp [ih]

/-- Winsorisation alters at most the bottom five percent and the top five
percent of the numeric values by rank: the number of positions whose cell
changes is at most `2 * int(0.05 * m)`. -/
theorem winsorize_changes_le (cells : List Cell) :
    ((cells.zip (winsorizeCells cells)).countP (fun p => decide (p.1 ≠ p.2)))
      ≤ 2 * ((nums cells).length / 20) := by
  have hzip : cells.zip (winsorizeCells cells)
      = cells.map (fun c => (c, clampCell (loLimit cells) (hiLimit cells) c)) := by
    rw [winsorizeCells, zip_self_map]
  rw [hzip, List.countP_map]
  have hstep1 : cells.countP
      ((fun p : Cell × Cell => decide (p.1 ≠ p.2)) ∘
        (fun c => (c, clampCell (loLimit cells) (hiLimit cells) c)))
      ≤ cells.countP (fun c =>
          ((numOf c).map (fun x =>
            decide (x < loLimit cells) || decide (hiLimit cells < x))).getD false) := by
    apply List.countP_mono_left
    intro c _ hc
    simp only [Function.comp_apply, decide_eq_true_eq] at hc
    cases c with
    | none =>
      exact absurd (rfl :
        (none : Cell) = clampCell (loLimit cells) (hiLimit cells) none) hc
    | some v =>
      cases v with
      | str s =>
        exact absurd (rfl : (some (Val.str s) : Cell)
          = clampCell (loLimit cells) (hiLimit cells) (some (Val.str s))) hc
      | num x =>
        simp only [numOf, Option.map_some', Option.getD_some]
        by_cases hlo : x < loLimit cells
        · simp [hlo]
        · by_cases hhi : hiLimit cells < x
          · simp [hhi]
          · exfalso
            apply hc
            simp [clampCell, hlo, hhi]
  have hstep2 : cells.countP (fun c =>
      ((numOf c).map (fun x =>
        decide (x < loLimit cells) || decide (hiLimit cells < x))).getD false)
      = (nums cells).countP (fun x =>
          decide (x < loLimit cells) || decide (hiLimit cells < x)) := by
    rw [nums, List.countP_filterMap]
  have hlo : (nums cells).countP (fun x => decide (x < loLimit cells))
      ≤ (nums cells).length / 20 := by
    rw [← (sortQ_perm (nums cells)).countP_eq]
    have := sorted_countP_lt_le (sortQ (nums cells)) (sortQ_sorted (nums cells))
      ((nums cells).length / 20)
    exact this
  have hhi : (nums cells).countP (fun x => decide (hiLimit cells < x))
      ≤ (nums cells).length / 20 := by
    rcases Nat.eq_zero_or_pos (nums cells).length with hm | hm
    · have : nums cells = [] := List.eq_nil_of_length_eq_zero hm
      rw [this]
      simp
    · rw [← (sortQ_perm (nums cells)).countP_eq]
      have hlen : (sortQ (nums cells)).length = (nums cells).length := by
        rw [sortQ, List.length_insertionSort]
      have hjlt : (nums cells).length - 1 - (nums cells).length / 20
          < (sortQ (nums cells)).length := by
        rw [hlen]
        omega
      have := sorted_countP_gt_le (sortQ (nums cells)) (sortQ_sorted (nums cells))
        ((nums cells).length - 1 - (nums cells).length / 20) hjlt
      rw [hlen] at this
      refine le_trans this ?_
      omega
  calc cells.countP _ ≤ _ := hstep1
    _ = _ := hstep2
    _ ≤ (nums cells).countP (fun x => decide (x < loLimit cells))
          + (nums cells).countP (fun x => decide (hiLimit cells < x)) :=
        countP_or_le _ _ _
    _ ≤ 2 * ((nums cells).length / 20) := by omega

/-- Example column for claim 10: the ranks 1 to 20 plus one huge outlier,
21 numeric values in all, so the winsorisation rank limit is
`int(0.05 * 21) = 1` on each tail. -/
def c10Example : List Cell :=
  [some (Val.num 1), some (Val.num 2), some (Val.num 3), some (Val.num 4),
   some (Val.num 5), some (Val.num 6), some (Val.num 7), some (Val.num 8),
   some (Val.num 9), some (Val.num 10), some (Val.num 11), some (Val.num 12),
   some (Val.num 13), some (Val.num 14), some (Val.num 15), some (Val.num 16),
   some (Val.num 17), some (Val.num 18), some (Val.num 19), some (Val.num 20),
   some (Val.num 1000)]

/-- Constant example column for the witness of claim 10. -/
def c10ConstCells : List Cell :=
  [some (Val.num 7), some (Val.num 7), some (Val.num 7)]

/-- C10: in the IQR-with-capping treatment, a column with zero flagged
values is returned unchanged, while a column with at least one flagged
value is winsorised whole at the fixed 5 percent rank limits; the altered
positions number at most 5 percent per tail, and on the concrete column
[1..20, 1000] the IQR rule flags only 1000 (one value), yet winsorisation
also alters the unflagged bottom value 1, so two values change while one
was flagged. -/
theorem c10_cap_winsorizes_whole_column :
    (∀ (cells : List Cell) (k : ℚ), iqrFlagged cells k = 0 →
      capColumnIQR cells k = cells)
  ∧ (∀ (cells : List Cell) (k : ℚ), 0 < iqrFlagged cells k →
      capColumnIQR cells k = winsorizeCells cells)
  ∧ (∀ cells : List Cell,
      ((cells.zip (winsorizeCells cells)).countP (fun p => decide (p.1 ≠ p.2)))
        ≤ 2 * ((nums cells).length / 20))
  ∧ iqrFlagged c10Example (3/2) = 1
  ∧ (identify_outliers_iqr c10Example (3/2)).getD 0 true = false
  ∧ (capColumnIQR c10Example (3/2)).getD 0 none ≠ c10Example.getD 0 none
  ∧ ((c10Example.zip (capColumnIQR c10Example (3/2))).countP
      (fun p => decide (p.1 ≠ p.2))) = 2 := by
  refine ⟨?_, ?_, winsorize_changes_le, ?_, ?_, ?_, ?_⟩
  · intro cells k h
    unfold capColumnIQR
    rw [h]
    simp
  · intro cells k h
    unfold capColumnIQR
    rw [if_pos h]
  · decide
  · decide
  · decide
  · decide

/-- Witness for C10: the two guarded branches applied at concrete columns,
one with no flagged value and one with a flagged value. -/
theorem c10_cap_winsorizes_whole_column_witness :
    capColumnIQR c10ConstCells (3/2) = c10ConstCells ∧
      capColumnIQR c10Example (3/2) = winsorizeCells c10Example :=
  ⟨c10_cap_winsorizes_whole_column.1 c10ConstCells (3/2) (by decide),
    c10_cap_winsorizes_whole_column.2.1 c10Example (3/2) (by decide)⟩
